/-
Verification of the tc3 coffee-rewards web application (src/app.js).

The application is an Express app: a `/` landing page that renders four
pseudo-random coffee codes, a pseudo-random discount, and a price string
computed with JavaScript double arithmetic and `Number.prototype.toFixed`;
a `/logout` route that deletes the local session (the session middleware is
configured with `unset: 'destroy'`) and redirects to `/`; and a bootstrap
that starts listening only once the OIDC middleware emits `ready`.

JavaScript numbers are IEEE-754 binary64 values.  We embed them as exact
rationals: `fp64 q` is the rational value of the double nearest to `q`
(round-to-nearest, ties-to-even), which is exact for every number this
program manipulates (all are normal, far from overflow and underflow).
-/
import Mathlib

set_option maxRecDepth 100000

attribute [local semireducible] Rat.mul Rat.add Rat.sub Rat.inv Rat.ofScientific

/-- Fuel-driven ⌊log₂⌋ on naturals: `log2fuel f n` is `⌊log₂ n⌋` whenever
`1 ≤ n ≤ f`.  Structural recursion on the fuel keeps it kernel-reducible. -/
def log2fuel : ℕ → ℕ → ℕ
  | 0, _ => 0
  | f + 1, n => if n < 2 then 0 else log2fuel f (n / 2) + 1

/-- ⌊log₂ n⌋ for `n ≥ 1` (0 for `n = 0`). -/
def natLog2 (n : ℕ) : ℕ := log2fuel n n

/-- Fuel-driven ⌈log₂⌉ on naturals: `clog2fuel f n` is `⌈log₂ n⌉` whenever
`1 ≤ n ≤ f`. -/
def clog2fuel : ℕ → ℕ → ℕ
  | 0, _ => 0
  | f + 1, n => if n ≤ 1 then 0 else clog2fuel f ((n + 1) / 2) + 1

/-- ⌈log₂ n⌉ for `n ≥ 1` (0 for `n = 0`). -/
def natClog2 (n : ℕ) : ℕ := clog2fuel n n

/-- ⌊log₂ q⌋ for a positive rational: the unique `e` with `2^e ≤ q < 2^(e+1)`. -/
def ratLog2 (q : ℚ) : ℤ :=
  if 1 ≤ q then (natLog2 ⌊q⌋₊ : ℤ) else -(natClog2 ⌈q⁻¹⌉₊ : ℤ)

/-- Round a rational to the nearest integer, ties to even. -/
def rte (x : ℚ) : ℤ :=
  if x - ⌊x⌋ < 1 / 2 then ⌊x⌋
  else if 1 / 2 < x - ⌊x⌋ then ⌊x⌋ + 1
  else if ⌊x⌋ % 2 = 0 then ⌊x⌋ else ⌊x⌋ + 1

/-- Unit in the last place of the binary64 value at magnitude `q`:
doubles near `q > 0` are the integer multiples of `2^(⌊log₂ q⌋ - 52)`. -/
def ulp64 (q : ℚ) : ℚ := (2 : ℚ) ^ (ratLog2 q - 52)

/-- Exact rational value of the IEEE-754 binary64 double nearest to `q`
(round-to-nearest, ties-to-even), for magnitudes in the normal finite
range — which covers every number computed by this program. -/
def fp64 (q : ℚ) : ℚ :=
  if q = 0 then 0
  else if 0 < q then rte (q / ulp64 q) * ulp64 q
  else -(rte (-q / ulp64 (-q)) * ulp64 (-q))

example : ratLog2 (8.95 : ℚ) = 3 := by decide
example : ratLog2 (1 / 2 : ℚ) = -1 := by decide
example : fp64 (1 / 2 : ℚ) = 1 / 2 := by decide
example : fp64 (8.95 : ℚ) = 2519201041560371 / 281474976710656 := by decide

theorem log2fuel_correct (f : ℕ) : ∀ n, 1 ≤ n → n ≤ f →
    2 ^ log2fuel f n ≤ n ∧ n < 2 ^ (log2fuel f n + 1) := by
  induction f with
  | zero => intro n h1 h2; omega
  | succ f ih =>
    intro n h1 hf
    by_cases h : n < 2
    · have hn : n = 1 := by omega
      simp [log2fuel, h, hn]
    · rw [log2fuel, if_neg h]
      have hrec := ih (n / 2) (by omega) (by omega)
      obtain ⟨hl, hr⟩ := hrec
      rw [pow_succ, pow_succ] at *
      omega

theorem natLog2_correct (n : ℕ) (h : 1 ≤ n) :
    2 ^ natLog2 n ≤ n ∧ n < 2 ^ (natLog2 n + 1) :=
  log2fuel_correct n n h le_rfl

theorem clog2fuel_one (f m : ℕ) (h : m ≤ 1) : clog2fuel f m = 0 := by
  cases f with
  | zero => rfl
  | succ f => rw [clog2fuel, if_pos h]

theorem clog2fuel_correct (f : ℕ) : ∀ n, 2 ≤ n → n ≤ f →
    1 ≤ clog2fuel f n ∧ 2 ^ (clog2fuel f n - 1) < n ∧ n ≤ 2 ^ clog2fuel f n := by
  induction f with
  | zero => intro n h1 h2; omega
  | succ f ih =>
    intro n h1 hf
    have hn1 : ¬ (n ≤ 1) := by omega
    rw [clog2fuel, if_neg hn1]
    by_cases hm : (n + 1) / 2 ≤ 1
    · have hn2 : n = 2 := by omega
      rw [clog2fuel_one f _ hm]
      simp [hn2]
    · have hrec := ih ((n + 1) / 2) (by omega) (by omega)
      obtain ⟨h1c, hlow, hup⟩ := hrec
      set c := clog2fuel f ((n + 1) / 2) with hc
      refine ⟨by omega, ?_, ?_⟩
      · have hsplit : 2 ^ c = 2 ^ (c - 1) * 2 := by
          rw [← pow_succ]
          congr 1
          omega
        simp only [Nat.add_sub_cancel]
        omega
      · have hsplit : 2 ^ (c + 1) = 2 ^ c * 2 := by rw [pow_succ]
        omega

theorem natClog2_correct (n : ℕ) (h : 2 ≤ n) :
    1 ≤ natClog2 n ∧ 2 ^ (natClog2 n - 1) < n ∧ n ≤ 2 ^ natClog2 n :=
  clog2fuel_correct n n h le_rfl

theorem ratLog2_correct (q : ℚ) (hq : 0 < q) :
    (2 : ℚ) ^ ratLog2 q ≤ q ∧ q < (2 : ℚ) ^ (ratLog2 q + 1) := by
  unfold ratLog2
  by_cases h1 : 1 ≤ q
  · rw [if_pos h1]
    have hn1 : 1 ≤ ⌊q⌋₊ := Nat.le_floor (by exact_mod_cast h1)
    obtain ⟨hl, hr⟩ := natLog2_correct ⌊q⌋₊ hn1
    constructor
    · calc (2 : ℚ) ^ (natLog2 ⌊q⌋₊ : ℤ) = ((2 ^ natLog2 ⌊q⌋₊ : ℕ) : ℚ) := by
            rw [zpow_natCast]; push_cast; ring
        _ ≤ (⌊q⌋₊ : ℚ) := by exact_mod_cast hl
        _ ≤ q := Nat.floor_le hq.le
    · have h2 : q < (⌊q⌋₊ : ℚ) + 1 := Nat.lt_floor_add_one q
      have h3 : (⌊q⌋₊ : ℚ) + 1 ≤ ((2 ^ (natLog2 ⌊q⌋₊ + 1) : ℕ) : ℚ) := by
        have : ⌊q⌋₊ + 1 ≤ 2 ^ (natLog2 ⌊q⌋₊ + 1) := hr
        exact_mod_cast this
      calc q < (⌊q⌋₊ : ℚ) + 1 := h2
        _ ≤ ((2 ^ (natLog2 ⌊q⌋₊ + 1) : ℕ) : ℚ) := h3
        _ = (2 : ℚ) ^ ((natLog2 ⌊q⌋₊ : ℤ) + 1) := by
            have : ((natLog2 ⌊q⌋₊ : ℤ) + 1) = ((natLog2 ⌊q⌋₊ + 1 : ℕ) : ℤ) := by omega
            rw [this, zpow_natCast]; push_cast; ring
  · rw [if_neg h1]
    push_neg at h1
    have hinv : 1 < q⁻¹ := (one_lt_inv₀ hq).2 h1
    have hm2 : 2 ≤ ⌈q⁻¹⌉₊ := by
      have h' : 1 < ⌈q⁻¹⌉₊ := by
        rw [Nat.lt_ceil]
        exact_mod_cast hinv
      omega
    obtain ⟨hc1, hlow, hup⟩ := natClog2_correct ⌈q⁻¹⌉₊ hm2
    set c := natClog2 ⌈q⁻¹⌉₊ with hcdef
    constructor
    · have h4 : q⁻¹ ≤ ((2 ^ c : ℕ) : ℚ) := le_trans (Nat.le_ceil _) (by exact_mod_cast hup)
      have h5 : ((2 : ℚ) ^ (c : ℕ))⁻¹ ≤ q := by
        rw [inv_le_comm₀ (by positivity) hq]
        exact_mod_cast h4
      calc (2 : ℚ) ^ (-(c : ℤ)) = ((2 : ℚ) ^ (c : ℕ))⁻¹ := by rw [← zpow_natCast (2:ℚ) c, ← zpow_neg]
        _ ≤ q := h5
    · have h6 : ((2 ^ (c - 1) : ℕ) : ℚ) < q⁻¹ := by
        have hceil : (⌈q⁻¹⌉₊ : ℚ) < q⁻¹ + 1 := Nat.ceil_lt_add_one (by positivity)
        have h' : ((2 ^ (c - 1) : ℕ) : ℚ) + 1 ≤ (⌈q⁻¹⌉₊ : ℚ) := by exact_mod_cast hlow
        linarith
      have h7 : q < ((2 : ℚ) ^ ((c : ℤ) - 1))⁻¹ := by
        rw [lt_inv_comm₀ hq (by positivity)]
        have he : (2 : ℚ) ^ ((c : ℤ) - 1) = ((2 ^ (c - 1) : ℕ) : ℚ) := by
          have hc1' : (c : ℤ) - 1 = ((c - 1 : ℕ) : ℤ) := by omega
          rw [hc1', zpow_natCast]; push_cast; ring
        rw [he]; exact h6
      calc q < ((2 : ℚ) ^ ((c : ℤ) - 1))⁻¹ := h7
        _ = (2 : ℚ) ^ (-(c : ℤ) + 1) := by rw [← zpow_neg]; congr 1; ring

theorem rte_bounds (x : ℚ) : x - 1 / 2 ≤ (rte x : ℚ) ∧ (rte x : ℚ) ≤ x + 1 / 2 := by
  have h1 : (⌊x⌋ : ℚ) ≤ x := Int.floor_le x
  have h2 : x < ⌊x⌋ + 1 := Int.lt_floor_add_one x
  unfold rte
  split_ifs with ha hb hc
  · constructor <;> [linarith; linarith]
  · push_cast
    constructor <;> [linarith; linarith]
  · push_neg at ha hb
    constructor <;> [linarith; linarith]
  · push_neg at ha hb
    push_cast
    constructor <;> [linarith; linarith]

theorem rte_nonneg (x : ℚ) (h : 0 ≤ x) : 0 ≤ rte x := by
  have h0 : 0 ≤ ⌊x⌋ := Int.floor_nonneg.mpr h
  unfold rte
  split_ifs <;> omega

theorem ulp64_pos (q : ℚ) : 0 < ulp64 q := zpow_pos (by norm_num) _

theorem fp64_pos_eq (q : ℚ) (hq : 0 < q) :
    fp64 q = rte (q / ulp64 q) * ulp64 q := by
  unfold fp64
  rw [if_neg (ne_of_gt hq), if_pos hq]

theorem fp64_bounds (q : ℚ) (hq : 0 < q) :
    q - ulp64 q / 2 ≤ fp64 q ∧ fp64 q ≤ q + ulp64 q / 2 := by
  set u := ulp64 q with hu
  have hupos : 0 < u := ulp64_pos q
  rw [fp64_pos_eq q hq]
  obtain ⟨hl, hr⟩ := rte_bounds (q / u)
  constructor
  · have h1 : (q / u - 1 / 2) * u ≤ (rte (q / u) : ℚ) * u :=
      mul_le_mul_of_nonneg_right hl hupos.le
    have heq : (q / u - 1 / 2) * u = q - u / 2 := by field_simp; ring
    linarith [heq ▸ h1]
  · have h1 : (rte (q / u) : ℚ) * u ≤ (q / u + 1 / 2) * u :=
      mul_le_mul_of_nonneg_right hr hupos.le
    have heq : (q / u + 1 / 2) * u = q + u / 2 := by field_simp; ring
    linarith [heq ▸ h1]

theorem fp64_nonneg (q : ℚ) (h : 0 ≤ q) : 0 ≤ fp64 q := by
  rcases eq_or_lt_of_le h with h0 | hpos
  · rw [fp64, if_pos h0.symm]
  · rw [fp64_pos_eq q hpos]
    have h1 : 0 ≤ rte (q / ulp64 q) :=
      rte_nonneg _ (div_nonneg hpos.le (ulp64_pos q).le)
    have h2 : (0 : ℚ) ≤ ulp64 q := (ulp64_pos q).le
    positivity

theorem ratLog2_le (q : ℚ) (k : ℤ) (hq : 0 < q) (h : q < (2 : ℚ) ^ (k + 1)) :
    ratLog2 q ≤ k := by
  by_contra hcon
  push_neg at hcon
  have h1 : (2 : ℚ) ^ (k + 1) ≤ (2 : ℚ) ^ ratLog2 q :=
    zpow_le_zpow_right₀ (by norm_num) (by omega)
  have h2 := (ratLog2_correct q hq).1
  linarith

theorem ratLog2_ge (q : ℚ) (k : ℤ) (hq : 0 < q) (h : (2 : ℚ) ^ k ≤ q) :
    k ≤ ratLog2 q := by
  by_contra hcon
  push_neg at hcon
  have h1 : (2 : ℚ) ^ (ratLog2 q + 1) ≤ (2 : ℚ) ^ k :=
    zpow_le_zpow_right₀ (by norm_num) (by omega)
  have h2 := (ratLog2_correct q hq).2
  linarith

theorem double_le_one_sub (r : ℚ) (hd : fp64 r = r) (h0 : 0 < r) (h1 : r < 1) :
    r ≤ 1 - (2 : ℚ) ^ (-53 : ℤ) := by
  by_contra hcon
  push_neg at hcon
  have he_le : ratLog2 r ≤ -1 := by
    refine ratLog2_le r (-1) h0 ?_
    have h' : ((2 : ℚ) ^ ((-1 : ℤ) + 1)) = 1 := by decide
    rw [h']; exact h1
  have he_ge : -1 ≤ ratLog2 r := by
    refine ratLog2_ge r (-1) h0 ?_
    have h' : ((2 : ℚ) ^ (-1 : ℤ)) = 1 / 2 := by decide
    have h53 : ((2 : ℚ) ^ (-53 : ℤ)) = 1 / 9007199254740992 := by decide
    rw [h']
    rw [h53] at hcon
    linarith
  have he : ratLog2 r = -1 := le_antisymm he_le he_ge
  have hu : ulp64 r = (2 : ℚ) ^ (-53 : ℤ) := by
    rw [ulp64, he]
    norm_num
  set k := rte (r / ulp64 r) with hk
  have heq : (k : ℚ) * ulp64 r = r := by rw [hk, ← fp64_pos_eq r h0, hd]
  have hupos := ulp64_pos r
  have hkval : (k : ℚ) = r / ulp64 r := by
    field_simp
    linarith [heq]
  rw [hu] at hkval
  have hdiv : r / (2 : ℚ) ^ (-53 : ℤ) = r * 9007199254740992 := by
    have h53 : ((2 : ℚ) ^ (-53 : ℤ)) = 1 / 9007199254740992 := by decide
    rw [h53]
    field_simp
  rw [hdiv] at hkval
  have h53 : ((2 : ℚ) ^ (-53 : ℤ)) = 1 / 9007199254740992 := by decide
  rw [h53] at hcon
  have hlow : (9007199254740991 : ℚ) < (k : ℚ) := by
    rw [hkval]; nlinarith
  have hhigh : (k : ℚ) < 9007199254740992 := by
    rw [hkval]; nlinarith
  have hlow' : (9007199254740991 : ℤ) < k := by exact_mod_cast hlow
  have hhigh' : k < (9007199254740992 : ℤ) := by exact_mod_cast hhigh
  omega

theorem fp64_le_add (x : ℚ) (h0 : 0 < x) (h16 : x < 16) :
    fp64 x ≤ x + (2 : ℚ) ^ (-50 : ℤ) := by
  have h16' : x < (2 : ℚ) ^ ((3 : ℤ) + 1) := by
    have h' : ((2 : ℚ) ^ ((3 : ℤ) + 1)) = 16 := by decide
    rw [h']; exact h16
  have hle : ratLog2 x ≤ 3 := ratLog2_le x 3 h0 h16'
  have hu : ulp64 x ≤ (2 : ℚ) ^ (-49 : ℤ) := by
    rw [ulp64]
    exact zpow_le_zpow_right₀ (by norm_num) (by omega)
  have hb := (fp64_bounds x h0).2
  have e49 : (2 : ℚ) ^ (-49 : ℤ) = 1 / 562949953421312 := by decide
  have e50 : (2 : ℚ) ^ (-50 : ℤ) = 1 / 1125899906842624 := by decide
  rw [e50]
  rw [e49] at hu
  linarith

theorem floor_fp64_mul_range (n : ℕ) (r : ℚ) (hn9 : 9 ≤ n) (hn12 : n ≤ 12)
    (hd : fp64 r = r) (h0 : 0 ≤ r) (h1 : r < 1) :
    0 ≤ ⌊fp64 (r * n)⌋ ∧ ⌊fp64 (r * n)⌋ < (n : ℤ) := by
  rcases eq_or_lt_of_le h0 with hz | hpos
  · rw [← hz, zero_mul]
    have hzv : fp64 0 = 0 := by rw [fp64, if_pos rfl]
    rw [hzv]
    simp
    omega
  · have hr53 := double_le_one_sub r hd hpos h1
    have hn9' : (9 : ℚ) ≤ (n : ℚ) := by exact_mod_cast hn9
    have hn12' : (n : ℚ) ≤ 12 := by exact_mod_cast hn12
    have hn0 : (0 : ℚ) < (n : ℚ) := by linarith
    have hx0 : 0 < r * n := mul_pos hpos hn0
    have hx16 : r * n < 16 := by nlinarith
    have hup := fp64_le_add (r * n) hx0 hx16
    have hxle : r * n ≤ (n : ℚ) - (n : ℚ) * (2 : ℚ) ^ (-53 : ℤ) := by
      have h' := mul_le_mul_of_nonneg_right hr53 hn0.le
      nlinarith [h']
    have hkey : (2 : ℚ) ^ (-50 : ℤ) < (n : ℚ) * (2 : ℚ) ^ (-53 : ℤ) := by
      have h8 : (2 : ℚ) ^ (-50 : ℤ) = 8 * (2 : ℚ) ^ (-53 : ℤ) := by decide
      have hc : (0 : ℚ) < (2 : ℚ) ^ (-53 : ℤ) := zpow_pos (by norm_num) _
      nlinarith
    have hlt : fp64 (r * n) < (n : ℚ) := by linarith
    constructor
    · exact Int.floor_nonneg.mpr (fp64_nonneg _ hx0.le)
    · rw [Int.floor_lt]
      exact_mod_cast hlt

/-- String.padStart from JavaScript, with a single-character pad:
prepend copies of `c` until the length is at least `len`. -/
def padStart (len : ℕ) (c : Char) (s : String) : String :=
  String.mk (List.replicate (len - s.length) c) ++ s

/-- Integer chosen by `Number.prototype.toFixed(2)` (ECMA-262): the `n`
with `n / 100` closest to `x`, ties toward the larger `n`. -/
def toFixed2Int (x : ℚ) : ℤ := round (x * 100)

/-- Decimal rendering of `toFixed(2)`'s integer `n` as `⟨n/100⟩.⟨n%100⟩`,
with the fraction zero-padded to two digits (valid for the positive,
sub-10²¹ values this program produces). -/
def formatCents (n : ℤ) : String :=
  toString (n / 100) ++ "." ++
    (if (n % 100).toNat < 10 then "0" ++ toString ((n % 100).toNat)
     else toString ((n % 100).toNat))

/-- JavaScript `x.toFixed(2)` on a double value `x`. -/
def jsToFixed2 (x : ℚ) : String := formatCents (toFixed2Int x)

/-- Value of the JavaScript literal `8.95`: the binary64 double nearest
to 8.95 (the literal is not exactly representable). -/
def jsLit895 : ℚ := fp64 (8.95 : ℚ)

/-- One coffee code, from one `Math.random()` output `r`:
`(Math.floor(r * 12) + 1).toString().padStart(2, '0')` (app.js line 94);
`r * 12` is one double multiplication. -/
def coffeeCode (r : ℚ) : String :=
  padStart 2 '0' (toString (⌊fp64 (r * 12)⌋ + 1))

/-- The discount, from one `Math.random()` output `r`:
`Math.floor(r * 11) + 5` (app.js line 99). -/
def discountOf (r : ℚ) : ℤ := ⌊fp64 (r * 11)⌋ + 5

/-- Displayed price string, from the discount:
`(8.95 * ((100 - discount) / 100)).toFixed(2)` (app.js line 104), with
one double division and one double multiplication. -/
def basePriceStr (discount : ℤ) : String :=
  jsToFixed2 (fp64 (jsLit895 * fp64 ((100 - (discount : ℚ)) / 100)))

/-- Modelled from the spec (§8, "displayed price equals
`round(8.95 × (100 − discount) / 100, 2)`"): the same price computed in
exact arithmetic and rounded half-up to two decimals, for comparison
against the code's double arithmetic. -/
def specDisplayedPrice (discount : ℤ) : String :=
  formatCents (round ((8.95 : ℚ) * ((100 - (discount : ℚ)) / 100) * 100))

/-- Server-side session state: arbitrary key/value pairs (the OIDC
middleware stashes identity tokens here). -/
abbrev SessionData := List (String × String)

/-- Userinfo claims object; only the displayed field is modelled. -/
structure Userinfo where
  name : Option String
deriving DecidableEq

/-- The request-scoped `req.userContext` the OIDC middleware may attach. -/
structure UserContext where
  userinfo : Option Userinfo
deriving DecidableEq

/-- Data handed to `res.render('home', …)` by the `/` handler. -/
structure HomeRenderData where
  name : Option String
  discount : ℤ
  basePrice : String
  product : List String
deriving DecidableEq

/-- The `/` landing-page handler (app.js lines 85-107).  `rand i` is the
value of the i-th `Math.random()` call (four coffee draws, then the
discount draw).  Returns the render data and the session state after the
request; the handler body never assigns to the session. -/
def homeHandler (rand : ℕ → ℚ) (userContext : Option UserContext)
    (session : Option SessionData) : HomeRenderData × Option SessionData :=
  let coffees := (List.range 4).map (fun i => coffeeCode (rand i))
  let discount := discountOf (rand 4)
  ({ name := (userContext.bind (fun u => u.userinfo)).bind (fun ui => ui.name),
     discount := discount,
     basePrice := basePriceStr discount,
     product := coffees },
   session)

/-- An HTTP response as far as the logout claims need it. -/
structure Response where
  status : ℕ
  location : String
deriving DecidableEq

/-- Observable effects a route handler can perform.  `providerCall` is an
outbound request to the identity provider (e.g. its logout or revocation
endpoint); the embedding makes such calls expressible so that their
absence in the logout handler is a statement about the code, not about
the model's vocabulary. -/
inductive Effect where
  | destroyLocalSession : Effect
  | http : ℕ → String → Effect
  | providerCall : String → Effect
deriving DecidableEq

/-- The `/logout` handler's body, transcribed effect by effect
(app.js lines 121-125): `delete req.session; res.redirect('/')`.
Express's `res.redirect` defaults to status 302. -/
def logoutHandlerEffects : List Effect :=
  [Effect.destroyLocalSession, Effect.http 302 "/"]

/-- Interpretation of handler effects on the request-local state
(session, pending response).  Provider calls do not touch local state. -/
def runLocal : List Effect → Option SessionData × Option Response →
    Option SessionData × Option Response
  | [], st => st
  | Effect.destroyLocalSession :: es, (_, r) => runLocal es (none, r)
  | Effect.http st loc :: es, (s, _) => runLocal es (s, some ⟨st, loc⟩)
  | Effect.providerCall _ :: es, st => runLocal es st

/-- The `/logout` handler as a function on the request's session. -/
def logoutHandler (req : Option SessionData) :
    Option SessionData × Option Response :=
  runLocal logoutHandlerEffects (req, none)

def isProviderCall : Effect → Bool
  | Effect.providerCall _ => true
  | _ => false

/-- Identity-provider-side state: the provider's own active sessions. -/
structure ProviderState where
  sessions : List String
deriving DecidableEq

/-- How each effect acts on provider-side state: only `providerCall`
(a logout/termination request) can change it. -/
def applyProviderEffect : Effect → ProviderState → ProviderState
  | Effect.providerCall _, _ => ⟨[]⟩
  | _, ps => ps

def interpProvider (es : List Effect) (ps : ProviderState) : ProviderState :=
  es.foldl (fun s e => applyProviderEffect e s) ps

/-- The session store: cookie sid ↦ session data. -/
abbrev SessionStore := List (String × SessionData)

/-- End-of-request behaviour of express-session configured with
`unset: 'destroy'` and `resave: true` (app.js lines 55-62): a request
that unset its session destroys the sid's entry when the response ends;
a surviving session is written back. -/
def endRequestDestroy (store : SessionStore) (sid : Option String)
    (reqSession : Option SessionData) : SessionStore :=
  match sid, reqSession with
  | some s, none => store.filter (fun p => p.1 != s)
  | some s, some d => (s, d) :: store.filter (fun p => p.1 != s)
  | none, _ => store

/-- A full `/logout` request round-trip against the store: load the
session for the request's cookie (if any), run the handler, apply the
end-of-request session-middleware semantics. -/
def processLogout (store : SessionStore) (sid : Option String) :
    SessionStore × Option Response :=
  let reqSession := sid.bind (fun s => store.lookup s)
  let result := logoutHandler reqSession
  (endRequestDestroy store sid result.1, result.2)

/-- The value Express listens on: either the `APP_PORT` string from the
environment or the numeric default. -/
inductive PortVal where
  | str : String → PortVal
  | num : ℕ → PortVal
deriving DecidableEq

/-- app.js line 23: `process.env.APP_PORT ? process.env.APP_PORT : 8081`.
An unset variable is `undefined` (falsy); a set variable is a string,
falsy exactly when empty. -/
def computePort (appPort : Option String) : PortVal :=
  match appPort with
  | none => PortVal.num 8081
  | some s => if s != "" then PortVal.str s else PortVal.num 8081

def PortVal.display : PortVal → String
  | PortVal.str s => s
  | PortVal.num n => toString n

/-- Events the bootstrap reacts to: the OIDC middleware's lifecycle
signals and incoming connection attempts. -/
inductive OidcEvent where
  | ready : OidcEvent
  | error : String → OidcEvent
  | connect : OidcEvent
deriving DecidableEq

/-- Observable bootstrap state.  `exited`/`restarts` record process
termination and restarts; no transition below ever sets them, mirroring
the absence of any such code in app.js. -/
structure BootState where
  listening : Bool
  listenPort : Option PortVal
  accepted : ℕ
  log : List String
  exited : Bool
  restarts : ℕ
deriving DecidableEq

def initBootState : BootState :=
  { listening := false, listenPort := none, accepted := 0, log := [],
    exited := false, restarts := 0 }

/-- One bootstrap transition (app.js lines 130-143): the `ready` callback
calls `app.listen(port, …)` and logs; the `error` callback only logs; a
connection is accepted only while listening. -/
def bootStep (port : PortVal) (s : BootState) (ev : OidcEvent) : BootState :=
  match ev with
  | OidcEvent.ready =>
      { s with listening := true, listenPort := some port,
               log := ("listening on port " ++ port.display) :: s.log }
  | OidcEvent.error e =>
      { s with log := e :: s.log }
  | OidcEvent.connect =>
      if s.listening then { s with accepted := s.accepted + 1 } else s

/-- The bootstrap run on a sequence of events, with the environment's
`APP_PORT`. -/
def runBoot (env : Option String) (evs : List OidcEvent) : BootState :=
  evs.foldl (bootStep (computePort env)) initBootState

example : basePriceStr 10 = "8.05" := by decide
example : specDisplayedPrice 10 = "8.06" := by decide
example : basePriceStr 12 = "7.88" := by decide
example : specDisplayedPrice 12 = "7.88" := by decide
example : coffeeCode (1 / 2) = "07" := by decide
example : discountOf (1 / 2) = 10 := by decide

/-- An output of `Math.random()`: a binary64 double in [0, 1). -/
def isJsRandom (r : ℚ) : Prop := fp64 r = r ∧ 0 ≤ r ∧ r < 1

theorem coffee_floor_range (r : ℚ) (hd : fp64 r = r) (h0 : 0 ≤ r) (h1 : r < 1) :
    0 ≤ ⌊fp64 (r * 12)⌋ ∧ ⌊fp64 (r * 12)⌋ < 12 := by
  have h := floor_fp64_mul_range 12 r (by norm_num) (by norm_num) hd h0 h1
  simpa using h

theorem discount_floor_range (r : ℚ) (hd : fp64 r = r) (h0 : 0 ≤ r) (h1 : r < 1) :
    0 ≤ ⌊fp64 (r * 11)⌋ ∧ ⌊fp64 (r * 11)⌋ < 11 := by
  have h := floor_fp64_mul_range 11 r (by norm_num) (by norm_num) hd h0 h1
  simpa using h

theorem code_shape (k : ℤ) (h1 : 1 ≤ k) (h2 : k ≤ 12) :
    (padStart 2 '0' (toString k)).length = 2 := by
  interval_cases k <;> decide

/-- C2: for every request to `/` (any Math.random outputs, any identity
context, any session), exactly 4 product codes are produced, each a
two-character zero-padded decimal string of an integer in [1, 12]. -/
theorem c2_four_product_codes (rand : ℕ → ℚ) (uc : Option UserContext)
    (sess : Option SessionData) (hrand : ∀ i, isJsRandom (rand i)) :
    ((homeHandler rand uc sess).1.product).length = 4 ∧
    ∀ code ∈ (homeHandler rand uc sess).1.product, ∃ k : ℤ,
      1 ≤ k ∧ k ≤ 12 ∧ code = padStart 2 '0' (toString k) ∧ code.length = 2 := by
  constructor
  · simp [homeHandler]
  · intro code hcode
    simp only [homeHandler, List.mem_map, List.mem_range] at hcode
    obtain ⟨i, _, hrfl⟩ := hcode
    obtain ⟨hd, h0, h1⟩ := hrand i
    obtain ⟨hge, hlt⟩ := coffee_floor_range (rand i) hd h0 h1
    refine ⟨⌊fp64 (rand i * 12)⌋ + 1, by omega, by omega, ?_, ?_⟩
    · rw [← hrfl]; rfl
    · rw [← hrfl]
      exact code_shape _ (by omega) (by omega)

/-- C2 witness at the concrete random stream that always returns 0. -/
theorem c2_witness :
    ((homeHandler (fun _ => 0) none none).1.product).length = 4 ∧
    ∀ code ∈ (homeHandler (fun _ => 0) none none).1.product, ∃ k : ℤ,
      1 ≤ k ∧ k ≤ 12 ∧ code = padStart 2 '0' (toString k) ∧ code.length = 2 :=
  c2_four_product_codes (fun _ => 0) none none
    (fun _ => show isJsRandom 0 from ⟨by decide, by decide, by decide⟩)

/-- C3: for every request to `/`, the discount rendered to the template is
an integer in [5, 15]. -/
theorem c3_discount_range (rand : ℕ → ℚ) (uc : Option UserContext)
    (sess : Option SessionData) (hrand : isJsRandom (rand 4)) :
    5 ≤ (homeHandler rand uc sess).1.discount ∧
    (homeHandler rand uc sess).1.discount ≤ 15 := by
  obtain ⟨hd, h0, h1⟩ := hrand
  obtain ⟨hge, hlt⟩ := discount_floor_range (rand 4) hd h0 h1
  have hdisc : (homeHandler rand uc sess).1.discount = ⌊fp64 (rand 4 * 11)⌋ + 5 := rfl
  omega

/-- C3 witness at the constant random stream 1/2 (discount 10). -/
theorem c3_witness :
    5 ≤ (homeHandler (fun _ => 1 / 2) none none).1.discount ∧
    (homeHandler (fun _ => 1 / 2) none none).1.discount ≤ 15 :=
  c3_discount_range (fun _ => 1 / 2) none none ⟨by decide, by decide, by decide⟩

/-- C1 counterexample: when the discount draw yields 10 (e.g. every
`Math.random()` call returns 1/2) the rendered price string is "8.05":
the double nearest 8.95 times the double 0.9 is 8.05499999999999971…,
and `toFixed(2)` rounds it down — while the spec's exact
round(8.95 × 90 / 100, 2) is "8.06", which the claim asserts. -/
theorem c1_counterexample :
    (homeHandler (fun _ => 1 / 2) none none).1.discount = 10 ∧
    (homeHandler (fun _ => 1 / 2) none none).1.basePrice = "8.05" ∧
    specDisplayedPrice 10 = "8.06" ∧
    (homeHandler (fun _ => 1 / 2) none none).1.basePrice ≠ specDisplayedPrice 10 := by
  refine ⟨by decide, by decide, by decide, by decide⟩

/-- C1 (amended): for every request to `/`, the displayed price is the
`toFixed(2)` rendering of the IEEE-754 double `8.95 * ((100 - d) / 100)`;
this agrees with the spec's exact `round(8.95 × (100 − d) / 100, 2)` for
every discount d in [5, 15] except d = 10, where it is "8.05" (not
"8.06") because the double product lies just below 8.055. -/
theorem c1_price_amended (rand : ℕ → ℚ) (uc : Option UserContext)
    (sess : Option SessionData) (hrand : isJsRandom (rand 4)) :
    (homeHandler rand uc sess).1.basePrice =
      (if (homeHandler rand uc sess).1.discount = 10 then "8.05"
       else specDisplayedPrice (homeHandler rand uc sess).1.discount) := by
  obtain ⟨hd, h0, h1⟩ := hrand
  obtain ⟨hge, hlt⟩ := discount_floor_range (rand 4) hd h0 h1
  have hdisc : (homeHandler rand uc sess).1.discount = ⌊fp64 (rand 4 * 11)⌋ + 5 := rfl
  have hbase : (homeHandler rand uc sess).1.basePrice =
      basePriceStr (⌊fp64 (rand 4 * 11)⌋ + 5) := rfl
  rw [hbase, hdisc]
  set d := ⌊fp64 (rand 4 * 11)⌋ + 5 with hdval
  have hd5 : 5 ≤ d := by omega
  have hd15 : d ≤ 15 := by omega
  clear_value d
  interval_cases d <;> decide

/-- C1 witness at the constant random stream 0 (discount 5, price "8.50"). -/
theorem c1_witness :
    (homeHandler (fun _ => 0) none none).1.basePrice =
      (if (homeHandler (fun _ => 0) none none).1.discount = 10 then "8.05"
       else specDisplayedPrice (homeHandler (fun _ => 0) none none).1.discount) :=
  c1_price_amended (fun _ => 0) none none ⟨by decide, by decide, by decide⟩

theorem lookup_filter_ne (s : String) (l : SessionStore) :
    (l.filter (fun p => p.1 != s)).lookup s = none := by
  induction l with
  | nil => rfl
  | cons hd tl ih =>
    by_cases h : hd.1 = s
    · simp [List.filter_cons, h, ih]
    · have hne : (hd.1 != s) = true := by simpa using h
      have hne' : (s == hd.1) = false := by
        simpa using fun he => h he.symm
      simp [List.filter_cons, hne, List.lookup, hne', ih]

/-- C4: a GET `/logout` request destroys the whole server-side state of
the request's session (the store keeps no entry at all for its sid, hence
every key including identity tokens is gone) and responds with a 302
redirect to `/`. -/
theorem c4_logout_clears_session (store : SessionStore) (sid : String) :
    (processLogout store (some sid)).2 = some ⟨302, "/"⟩ ∧
    ((processLogout store (some sid)).1).lookup sid = none ∧
    ∀ p ∈ (processLogout store (some sid)).1, p.1 ≠ sid := by
  refine ⟨rfl, lookup_filter_ne sid store, ?_⟩
  intro p hp
  have hp' : p ∈ store.filter (fun q => q.1 != sid) := hp
  have h := List.of_mem_filter hp'
  simpa using h

/-- C4 witness on a store holding one session carrying an identity token. -/
theorem c4_witness :
    (processLogout [("sid1", [("idToken", "tok")])] (some "sid1")).2 =
      some ⟨302, "/"⟩ ∧
    ((processLogout [("sid1", [("idToken", "tok")])] (some "sid1")).1).lookup
      "sid1" = none ∧
    ("sid1", [("idToken", "tok")]) ∉
      (processLogout [("sid1", [("idToken", "tok")])] (some "sid1")).1 :=
  ⟨(c4_logout_clears_session _ "sid1").1,
   (c4_logout_clears_session _ "sid1").2.1,
   fun hmem => (c4_logout_clears_session _ "sid1").2.2 _ hmem rfl⟩

/-- C5: the `/logout` handler performs no identity-provider call: its
effect list contains no `providerCall`, so interpreting it leaves any
provider-side session state unchanged (only the local session and the
HTTP response are affected). -/
theorem c5_no_provider_logout :
    logoutHandlerEffects.filter (fun e => isProviderCall e) = [] ∧
    (∀ e ∈ logoutHandlerEffects, isProviderCall e = false) ∧
    ∀ ps : ProviderState, interpProvider logoutHandlerEffects ps = ps := by
  refine ⟨rfl, by decide, fun ps => rfl⟩

/-- C5 witness: the provider keeps its session across a logout. -/
theorem c5_witness :
    interpProvider logoutHandlerEffects ⟨["okta-session"]⟩ = ⟨["okta-session"]⟩ ∧
    isProviderCall Effect.destroyLocalSession = false :=
  ⟨c5_no_provider_logout.2.2 ⟨["okta-session"]⟩,
   c5_no_provider_logout.2.1 Effect.destroyLocalSession (by decide)⟩

/-- C10: `/logout` is total and idempotent: with no session cookie it
still answers 302 → `/` and leaves the store untouched, and running it a
second time reproduces exactly the store and response of the first. -/
theorem c10_logout_idempotent (store : SessionStore) (sid : Option String) :
    processLogout (processLogout store sid).1 sid = processLogout store sid ∧
    (processLogout store none).1 = store ∧
    (processLogout store none).2 = some ⟨302, "/"⟩ := by
  refine ⟨?_, rfl, rfl⟩
  cases sid with
  | none => rfl
  | some s =>
    show ((store.filter (fun p => p.1 != s)).filter (fun p => p.1 != s),
           some (⟨302, "/"⟩ : Response)) =
         (store.filter (fun p => p.1 != s), some ⟨302, "/"⟩)
    rw [List.filter_filter]
    simp

theorem bootRun_no_ready (port : PortVal) (evs : List OidcEvent) :
    ∀ s : BootState, OidcEvent.ready ∉ evs → s.listening = false →
      (evs.foldl (bootStep port) s).listening = false ∧
      (evs.foldl (bootStep port) s).accepted = s.accepted := by
  induction evs with
  | nil => intro s _ h; exact ⟨h, rfl⟩
  | cons e tl ih =>
    intro s hmem hl
    have hmem' : OidcEvent.ready ∉ tl := fun h => hmem (List.mem_cons_of_mem _ h)
    cases e with
    | ready => exact absurd (List.mem_cons_self _ _) hmem
    | error m =>
      exact ih (bootStep port s (OidcEvent.error m)) hmem' hl
    | connect =>
      have hstep : bootStep port s OidcEvent.connect = s := by
        simp [bootStep, hl]
      rw [List.foldl_cons, hstep]
      exact ih s hmem' hl

/-- C6: in every bootstrap execution in which the OIDC middleware's
`ready` signal has not fired, the Express listener has not been started
and no connection has been accepted — connections can only be accepted
after `ready`. -/
theorem c6_no_connection_before_ready (env : Option String)
    (evs : List OidcEvent) (h : OidcEvent.ready ∉ evs) :
    (runBoot env evs).listening = false ∧ (runBoot env evs).accepted = 0 :=
  bootRun_no_ready (computePort env) evs initBootState h rfl

/-- C6 witness: connections attempted before `ready` are not accepted. -/
theorem c6_witness :
    (runBoot none [OidcEvent.connect, OidcEvent.error "metadata fetch failed",
        OidcEvent.connect]).listening = false ∧
    (runBoot none [OidcEvent.connect, OidcEvent.error "metadata fetch failed",
        OidcEvent.connect]).accepted = 0 :=
  c6_no_connection_before_ready none _ (by decide)

theorem bootRun_preserved (port : PortVal) (evs : List OidcEvent) :
    ∀ s : BootState, (evs.foldl (bootStep port) s).exited = s.exited ∧
      (evs.foldl (bootStep port) s).restarts = s.restarts := by
  induction evs with
  | nil => intro s; exact ⟨rfl, rfl⟩
  | cons e tl ih =>
    intro s
    rw [List.foldl_cons]
    have h := ih (bootStep port s e)
    have hstep : (bootStep port s e).exited = s.exited ∧
        (bootStep port s e).restarts = s.restarts := by
      cases e with
      | ready => exact ⟨rfl, rfl⟩
      | error m => exact ⟨rfl, rfl⟩
      | connect =>
        by_cases hb : s.listening <;> simp [bootStep, hb]
    exact ⟨h.1.trans hstep.1, h.2.trans hstep.2⟩

/-- C7: the `error` signal handler only logs: one bootstrap step on an
error event prepends the message to the log and changes nothing else,
and over any whole event sequence the process is never terminated and
never restarted (the model has no retry/restart transition, mirroring
the code). -/
theorem c7_error_logged_nonfatal (env : Option String) :
    (∀ (s : BootState) (e : String),
      bootStep (computePort env) s (OidcEvent.error e) =
        { s with log := e :: s.log }) ∧
    (∀ evs : List OidcEvent,
      (runBoot env evs).exited = false ∧ (runBoot env evs).restarts = 0) := by
  constructor
  · intro s e; rfl
  · intro evs
    exact bootRun_preserved (computePort env) evs initBootState

/-- C8 counterexample: `APP_PORT` set to the empty string is a set
variable, yet the truthiness test `process.env.APP_PORT ? … : 8081`
falls back to the default 8081 rather than using the given value. -/
theorem c8_counterexample :
    computePort (some "") = PortVal.num 8081 ∧
    computePort (some "") ≠ PortVal.str "" := by decide

/-- C8 (amended): if `APP_PORT` is unset or set to the empty string the
application listens on 8081; otherwise it listens on the value of
`APP_PORT`; and once `ready` has fired the bootstrap is listening on
exactly that computed port. -/
theorem c8_port_amended (env : Option String) :
    (env = none → computePort env = PortVal.num 8081) ∧
    (env = some "" → computePort env = PortVal.num 8081) ∧
    (∀ s, env = some s → s ≠ "" → computePort env = PortVal.str s) ∧
    (∀ evs, OidcEvent.ready ∈ evs →
      (runBoot env evs).listenPort = some (computePort env)) := by
  refine ⟨?_, ?_, ?_, ?_⟩
  · intro h; rw [h]; rfl
  · intro h; rw [h]; rfl
  · intro s h hs
    rw [h]
    have hb : (s != "") = true := by simpa using hs
    simp [computePort, hb]
  · intro evs hmem
    have haux : ∀ (tl : List OidcEvent) (s : BootState), OidcEvent.ready ∈ tl →
        (tl.foldl (bootStep (computePort env)) s).listenPort =
          some (computePort env) := by
      intro tl
      induction tl with
      | nil => intro s h; exact absurd h (List.not_mem_nil _)
      | cons e tl ih =>
        intro s h
        rw [List.foldl_cons]
        by_cases hmem' : OidcEvent.ready ∈ tl
        · exact ih _ hmem'
        · have he : e = OidcEvent.ready := by
            rcases List.mem_cons.mp h with h' | h'
            · exact h'.symm
            · exact absurd h' hmem'
          subst he
          have hkeep : ∀ (tl' : List OidcEvent) (s' : BootState),
              s'.listenPort = some (computePort env) → OidcEvent.ready ∉ tl' →
              (tl'.foldl (bootStep (computePort env)) s').listenPort =
                some (computePort env) := by
            intro tl'
            induction tl' with
            | nil => intro s' hp _; exact hp
            | cons e' tl' ih' =>
              intro s' hp hnm
              rw [List.foldl_cons]
              have hnm' : OidcEvent.ready ∉ tl' :=
                fun hx => hnm (List.mem_cons_of_mem _ hx)
              apply ih' _ _ hnm'
              cases e' with
              | ready => exact absurd (List.mem_cons_self _ _) hnm
              | error m => exact hp
              | connect =>
                by_cases hb : s'.listening <;> simp [bootStep, hb, hp]
          exact hkeep tl _ rfl hmem'
    exact haux evs initBootState hmem

/-- C8 witness: a set, non-empty `APP_PORT` is used verbatim as the
listen port. -/
theorem c8_witness :
    computePort (some "3000") = PortVal.str "3000" ∧
    (runBoot (some "3000") [OidcEvent.ready]).listenPort =
      some (computePort (some "3000")) :=
  ⟨(c8_port_amended (some "3000")).2.2.1 "3000" rfl (by decide),
   (c8_port_amended (some "3000")).2.2.2 [OidcEvent.ready] (by decide)⟩

/-- C9: the `/` handler leaves the session untouched (it returns the
session exactly as received), and its guarded optional access to the
identity context is total: with no user context, or a user context with
no userinfo, the rendered name is simply `none` — no failure occurs. -/
theorem c9_home_session_frame (rand : ℕ → ℚ) (uc : Option UserContext)
    (sess : Option SessionData) :
    (homeHandler rand uc sess).2 = sess ∧
    (homeHandler rand none sess).1.name = none ∧
    (∀ c : UserContext, c.userinfo = none →
      (homeHandler rand (some c) sess).1.name = none) := by
  refine ⟨rfl, rfl, ?_⟩
  intro c hc
  simp [homeHandler, hc]

/-- C9 witness: concrete request with a userinfo-less context. -/
theorem c9_witness :
    (homeHandler (fun _ => 0) (some ⟨none⟩) (some [("k", "v")])).2 =
      some [("k", "v")] ∧
    (homeHandler (fun _ => 0) (some ⟨none⟩) (some [("k", "v")])).1.name = none :=
  ⟨(c9_home_session_frame (fun _ => 0) (some ⟨none⟩) (some [("k", "v")])).1,
   (c9_home_session_frame (fun _ => 0) (some ⟨none⟩) (some [("k", "v")])).2.2
     ⟨none⟩ rfl⟩
